import Mathlib

/-!
Verification of `manga_manager/img_operations/images_operations.py`.

Shallow embedding of the image-processing core of the repository.

An image is modelled as a rectangular grid of 8-bit pixels: a width, a
height, a pixel-access function and a mode (single-channel grayscale `L`
or three-channel `RGB`, mirroring the two PIL modes the code handles).
Pixel intensities are natural numbers; the PIL grayscale conversion
ITU-R 601-2 (`L = (R*19595 + G*38470 + B*7471) >> 16`, the exact integer
formula Pillow uses) is embedded as `lumRGB`.

Floating-point arithmetic in the source (`width / height` aspect-ratio
comparisons, `ImageStat` means) is embedded as exact rational arithmetic
with the final `int(...)` truncations as natural-number floor division.

The PIL resampling primitive (`Image.resize`) and the target canvas
dimensions (`final_document_width/height` from the `env_vars` module,
which is not part of the sources) are external collaborators per the
spec; they enter the embedding as an explicit `resize` function
parameter and explicit `sw`/`sh` arguments.
-/

/-- PIL image mode: single-channel grayscale or three-channel RGB. -/
inductive PMode where
  | L : PMode
  | RGB : PMode
deriving DecidableEq

/-- An image: mode, dimensions, and a pixel grid.  For `L` mode only the
first component of the pixel triple is meaningful. -/
structure Img where
  mode : PMode
  width : Nat
  height : Nat
  px : Nat → Nat → Nat × Nat × Nat

/-- Pillow's RGB→L luminance, `(R*19595 + G*38470 + B*7471) >> 16`
(the three weights sum to 65536). -/
def lumRGB (p : Nat × Nat × Nat) : Nat :=
  (p.1 * 19595 + p.2.1 * 38470 + p.2.2 * 7471) / 65536

/-- Grayscale intensity of a pixel, as produced by `image.convert("L")`. -/
def Img.lum (img : Img) (x y : Nat) : Nat :=
  match img.mode with
  | .L => (img.px x y).1
  | .RGB => lumRGB (img.px x y)

/-- The RGB triple a pixel contributes when pasted into an RGB image
(PIL expands an `L` pixel `c` to `(c, c, c)`). -/
def Img.toRGB (img : Img) (x y : Nat) : Nat × Nat × Nat :=
  match img.mode with
  | .L => ((img.px x y).1, (img.px x y).1, (img.px x y).1)
  | .RGB => img.px x y

/-- `image.crop((x0, y0, x1, y1))`: the PIL crop, a `(x1-x0) × (y1-y0)`
window translated by `(x0, y0)`, mode preserved. -/
def Img.cropBox (img : Img) (x0 y0 x1 y1 : Nat) : Img :=
  { mode := img.mode
    width := x1 - x0
    height := y1 - y0
    px := fun x y => img.px (x + x0) (y + y0) }

/-- Sum of the grayscale intensities of all pixels, in `ℚ` (the
numerator of the `ImageStat.Stat(...).mean[0]` computation). -/
def lumSum (img : Img) : ℚ :=
  ∑ y ∈ Finset.range img.height, ∑ x ∈ Finset.range img.width, (img.lum x y : ℚ)

/-- `average_brightness` (source lines 15–21): mean grayscale intensity.
On a zero-pixel image the source raises `ZeroDivisionError`; every
statement below that uses this definition assumes a nonempty image,
where the rational model agrees with the source. -/
def average_brightness (img : Img) : ℚ :=
  lumSum img / (img.width * img.height)

/-- `best_background_for_image` (source lines 24–42): black background
iff the contrast with white, `abs (255 - mean)`, strictly exceeds the
contrast with black, `mean`. -/
def best_background_for_image (img : Img) : Nat × Nat × Nat :=
  if |(255 : ℚ) - average_brightness img| > average_brightness img then (0, 0, 0)
  else (255, 255, 255)

/-- The `np.all(ch0 == ch1) and np.all(ch1 == ch2)` test of
`is_not_manga` (source line 92): every pixel has all three channels
equal. -/
def channelsUniform (img : Img) : Bool :=
  ((List.range img.height).all fun y => (List.range img.width).all fun x =>
      decide ((img.px x y).1 = (img.px x y).2.1)) &&
  ((List.range img.height).all fun y => (List.range img.width).all fun x =>
      decide ((img.px x y).2.1 = (img.px x y).2.2))

/-- `is_not_manga` (source lines 78–106).  The `width / height` division
raises on height 0; the surrounding `except` then returns `False`.  A
grayscale (`L`) image is never colored; an RGB image is colored iff some
pixel has unequal channels.  The source's `if aspect_ratio > 1.5 and
is_colored / elif not is_colored / else` ladder returns `True` in both
the first and the last branch (the aspect ratio `w/h > 1.5`, embedded
exactly as `2*w > 3*h`, only selects which branch logs). -/
def is_not_manga (img : Img) : Bool :=
  if img.height = 0 then false
  else
    let colored : Bool := match img.mode with
      | .L => false
      | .RGB => !channelsUniform img
    if decide (2 * img.width > 3 * img.height) && colored then true
    else if !colored then false
    else true

/-- One iteration of the row scan of `detect_blank_or_dark_spaces`
(source lines 118–122): a row is blank-or-dark iff all its pixels are
strictly above `threshold_light` or all are strictly below
`threshold_dark`. -/
def rowDead (img : Img) (tl td : Nat) (y : Nat) : Bool :=
  ((List.range img.width).all fun x => decide (tl < img.lum x y)) ||
  ((List.range img.width).all fun x => decide (img.lum x y < td))

/-- `detect_blank_or_dark_spaces` (source lines 109–128): the ascending
list of blank-or-dark row indices. -/
def detect_blank_or_dark_spaces (img : Img) (tl td : Nat) : List Nat :=
  (List.range img.height).filter fun y => rowDead img tl td y

/-- The per-pixel mask of `crop_image_by_blank_or_dark_space` (source
lines 139–141): a pixel survives iff it is neither strictly above
`blank_threshold` nor strictly below `dark_threshold`. -/
def cropMask (img : Img) (bt dt : Nat) (x y : Nat) : Bool :=
  !decide (bt < img.lum x y) && !decide (img.lum x y < dt)

/-- The set of in-bounds `(x, y)` coordinates surviving the mask
(`np.argwhere(crop_mask)` of source line 143). -/
def maskedCoords (img : Img) (bt dt : Nat) : Finset (Nat × Nat) :=
  (Finset.range img.width ×ˢ Finset.range img.height).filter
    fun p => cropMask img bt dt p.1 p.2 = true

/-- `crop_image_by_blank_or_dark_space` (source lines 131–155): crop to
the componentwise min/max bounding box of the surviving coordinates
(`coords.min(axis=0)`, `coords.max(axis=0) + 1`), or return the image
unchanged when no pixel survives. -/
def crop_image_by_blank_or_dark_space (img : Img) (bt dt : Nat) : Img :=
  if h : (maskedCoords img bt dt).Nonempty then
    img.cropBox (((maskedCoords img bt dt).image Prod.fst).min' (h.image Prod.fst))
      (((maskedCoords img bt dt).image Prod.snd).min' (h.image Prod.snd))
      (((maskedCoords img bt dt).image Prod.fst).max' (h.image Prod.fst) + 1)
      (((maskedCoords img bt dt).image Prod.snd).max' (h.image Prod.snd) + 1)
  else img

/-- The resized dimensions computed by `enhance_image_for_screen`
(source lines 163–172): if the image aspect ratio `w/h` strictly
exceeds the screen aspect ratio `sw/sh` (exactly: `w*sh > sw*h`), scale
width to `sw` and truncate the height, otherwise scale height to `sh`
and truncate the width. -/
def fitDims (w h sw sh : Nat) : Nat × Nat :=
  if w * sh > sw * h then (sw, sw * h / w) else (sh * w / h, sh)

/-- The `Image.new` + `paste` composite of `enhance_image_for_screen`
(source lines 175–181): an RGB canvas of size `sw × sh` filled with
`bg`, with `content` pasted at `(px0, py0)`. -/
def pasteCanvas (sw sh : Nat) (bg : Nat × Nat × Nat) (content : Img) (px0 py0 : Nat) : Img :=
  { mode := .RGB
    width := sw
    height := sh
    px := fun x y =>
      if px0 ≤ x ∧ x < px0 + content.width ∧ py0 ≤ y ∧ y < py0 + content.height then
        content.toRGB (x - px0) (y - py0)
      else bg }

/-- `enhance_image_for_screen` (source lines 158–186), parameterized by
the external `resize` collaborator (PIL LANCZOS resampling).  When the
image or screen height is zero the source's aspect-ratio division
raises and the `except` returns the image unchanged; likewise, when a
computed dimension truncates to zero the mean computation on the empty
resized image raises `ZeroDivisionError` and the `except` returns the
image unchanged. -/
def enhance_image_for_screen (resize : Img → Nat → Nat → Img) (img : Img) (sw sh : Nat) : Img :=
  if img.height = 0 ∨ sh = 0 then img
  else
    let nw := (fitDims img.width img.height sw sh).1
    let nh := (fitDims img.width img.height sw sh).2
    if nw = 0 ∨ nh = 0 then img
    else
      pasteCanvas sw sh (best_background_for_image (resize img nw nh)) (resize img nw nh)
        ((sw - nw) / 2) ((sh - nh) / 2)

/-- The background color `enhance_image_for_screen` selects for a given
input (the `best_background_for_image(resized_img)` argument of source
line 176). -/
def chosenBackground (resize : Img → Nat → Nat → Img) (img : Img) (sw sh : Nat) :
    Nat × Nat × Nat :=
  best_background_for_image
    (resize img (fitDims img.width img.height sw sh).1 (fitDims img.width img.height sw sh).2)

/-- The split-position list of `split_image_by_blank_or_dark_spaces`
(source line 202): `[0] + blank_spaces + [image.height]`. -/
def splitPositions (img : Img) (tl td : Nat) : List Nat :=
  0 :: detect_blank_or_dark_spaces img tl td ++ [img.height]

/-- The split loop of `split_image_by_blank_or_dark_spaces` (source
lines 206–217), reduced to the emitted row ranges: each consecutive
pair `(prev, cur)` of split positions yields the segment `[prev, cur)`
iff `cur - prev > min_gap` (Python integer subtraction, hence `Int`
here) and the cropped segment's height `cur - prev` is at least
`min_segment_height`; segments failing the height check are dropped. -/
def segmentRanges (ps : List Nat) (mg ms : Nat) : List (Nat × Nat) :=
  match ps with
  | [] => []
  | [_] => []
  | p :: q :: rest =>
    (if (mg : Int) < (q : Int) - (p : Int) ∧ (ms : Int) ≤ (q : Int) - (p : Int) then
        [(p, q)]
      else []) ++ segmentRanges (q :: rest) mg ms

/-- The row ranges produced by `detect_blank_or_dark_spaces` followed by
the split loop of `split_image_by_blank_or_dark_spaces`. -/
def splitSegments (img : Img) (tl td mg ms : Nat) : List (Nat × Nat) :=
  segmentRanges (splitPositions img tl td) mg ms

/-- `split_image_by_blank_or_dark_spaces` (source lines 189–223): every
emitted segment is cropped out of the page, content-cropped with the
segment-level default thresholds 240/30, and fitted to the screen. -/
def split_image_by_blank_or_dark_spaces (resize : Img → Nat → Nat → Img) (img : Img)
    (tl td mg ms sw sh : Nat) : List Img :=
  (splitSegments img tl td mg ms).map fun r =>
    enhance_image_for_screen resize
      (crop_image_by_blank_or_dark_space (img.cropBox 0 r.1 img.width r.2) 240 30) sw sh

/-- `split_and_crop_image` (source lines 226–242): pages other than the
first that pass `is_not_manga` go through the splitter with the
page-level defaults 240/15/20/75; every other page is content-cropped
(segment-level defaults 240/30) and fitted, yielding a single image. -/
def split_and_crop_image (resize : Img → Nat → Nat → Img) (img : Img) (page_num : Nat)
    (sw sh : Nat) : List Img :=
  if page_num ≠ 0 ∧ is_not_manga img = true then
    split_image_by_blank_or_dark_spaces resize img 240 15 20 75 sw sh
  else
    [enhance_image_for_screen resize (crop_image_by_blank_or_dark_space img 240 30) sw sh]

/-- A trivial instance of the external resize collaborator, used to
instantiate theorems at concrete inputs: it returns its input unchanged
when the requested size already matches and otherwise a black RGB image
of the requested size. -/
def stubResize (img : Img) (nw nh : Nat) : Img :=
  if img.width = nw ∧ img.height = nh then img
  else { mode := .RGB, width := nw, height := nh, px := fun _ _ => (0, 0, 0) }

/-! ## Helper lemmas -/

theorem lumRGB_toRGB (img : Img) (x y : Nat) : lumRGB (img.toRGB x y) = img.lum x y := by
  cases hm : img.mode <;> simp [Img.toRGB, Img.lum, lumRGB, hm]
  ring_nf
  exact Nat.mul_div_cancel _ (by norm_num)

/-! ## Claims -/

/-- Claim C3: a page with index 0 always takes the manga-style branch of
`split_and_crop_image`: a single content crop followed by a single
screen fit, producing exactly one output image, whatever the image's
aspect ratio or coloring; the splitter branch is never entered. -/
theorem C3_page_zero_single_crop (resize : Img → Nat → Nat → Img) (img : Img) (sw sh : Nat) :
    split_and_crop_image resize img 0 sw sh =
      [enhance_image_for_screen resize (crop_image_by_blank_or_dark_space img 240 30) sw sh] ∧
    (split_and_crop_image resize img 0 sw sh).length = 1 := by
  have h : ¬((0 : Nat) ≠ 0 ∧ is_not_manga img = true) := by simp
  rw [split_and_crop_image, if_neg h]
  simp

/-- A 2×2 colored RGB image: aspect ratio 1, channels unequal. -/
def narrowColored : Img := ⟨.RGB, 2, 2, fun _ _ => (10, 20, 30)⟩

/-- Claim C2 counterexample: the 2×2 colored RGB image has aspect ratio
1 ≤ 1.5, yet `is_not_manga` returns `true` for it (the source's `else`
branch returns `True` for any colored image regardless of aspect
ratio), contradicting the claim that every narrow image is treated as
manga-style. -/
theorem C2_counterexample :
    2 * narrowColored.width ≤ 3 * narrowColored.height ∧
      is_not_manga narrowColored = true := by
  constructor
  · decide
  · decide

/-- Claim C2 amended: `is_not_manga` returns `true` exactly when the
image has positive height and is colored (RGB mode with some pixel
whose channels differ); the aspect-ratio test does not influence the
result, so narrow colored images are also routed to the strip-style
branch, while every grayscale image is treated as manga-style. -/
theorem C2_amended (img : Img) :
    is_not_manga img = true ↔
      0 < img.height ∧ img.mode = PMode.RGB ∧ channelsUniform img = false := by
  rcases Nat.eq_zero_or_pos img.height with hh | hh
  · simp [is_not_manga, hh]
  · cases hm : img.mode
    · simp [is_not_manga, hm, hh.ne']
    · cases hcu : channelsUniform img
      · by_cases ha : 2 * img.width > 3 * img.height <;>
          simp [is_not_manga, hm, hh.ne', hcu, ha, hh]
      · simp [is_not_manga, hm, hh.ne', hcu]

/-- Claim C9: when no pixel's grayscale intensity lies in the
non-excluded band (every pixel is strictly above the blank threshold or
strictly below the dark threshold), `crop_image_by_blank_or_dark_space`
returns the original image unchanged: a deliberate fallback, not a
failure. -/
theorem C9_degenerate_crop_fallback (img : Img) (bt dt : Nat)
    (h : ∀ x, x < img.width → ∀ y, y < img.height →
      bt < img.lum x y ∨ img.lum x y < dt) :
    crop_image_by_blank_or_dark_space img bt dt = img := by
  have hne : ¬(maskedCoords img bt dt).Nonempty := by
    rintro ⟨p, hp⟩
    rw [maskedCoords, Finset.mem_filter, Finset.mem_product] at hp
    obtain ⟨⟨hx, hy⟩, hm⟩ := hp
    rw [Finset.mem_range] at hx hy
    rcases h p.1 hx p.2 hy with hl | hd
    · simp [cropMask, hl] at hm
    · simp [cropMask, hd] at hm
  rw [crop_image_by_blank_or_dark_space, dif_neg hne]

/-- An all-white 2×2 grayscale image: every pixel is above the default
blank threshold, so the crop fallback fires. -/
def allWhite : Img := ⟨.L, 2, 2, fun _ _ => (255, 0, 0)⟩

theorem C9_witness :
    (∀ x, x < allWhite.width → ∀ y, y < allWhite.height →
      240 < allWhite.lum x y ∨ allWhite.lum x y < 30) ∧
    crop_image_by_blank_or_dark_space allWhite 240 30 = allWhite :=
  ⟨by decide, C9_degenerate_crop_fallback allWhite 240 30 (by decide)⟩

/-- Claim C6: for every nonempty image, `best_background_for_image`
returns BLACK exactly when the contrast with white `abs (255 - mean)`
strictly exceeds the contrast with black `mean`; a tie resolves to
WHITE, and the result is always one of the two colors. -/
theorem C6_background_choice (img : Img) (h : 0 < img.width * img.height) :
    (best_background_for_image img = (0, 0, 0) ↔
      |(255 : ℚ) - average_brightness img| > average_brightness img) ∧
    (|(255 : ℚ) - average_brightness img| = average_brightness img →
      best_background_for_image img = (255, 255, 255)) ∧
    (best_background_for_image img = (0, 0, 0) ∨
      best_background_for_image img = (255, 255, 255)) := by
  by_cases hc : |(255 : ℚ) - average_brightness img| > average_brightness img
  · rw [best_background_for_image, if_pos hc]
    refine ⟨by simp [hc], fun ht => absurd hc (by rw [ht]; exact lt_irrefl _), Or.inl rfl⟩
  · rw [best_background_for_image, if_neg hc]
    refine ⟨?_, fun _ => rfl, Or.inr rfl⟩
    constructor
    · intro he
      exact absurd he (by decide)
    · intro hcc
      exact absurd hcc hc

/-- A 1×1 grayscale image of intensity 10: mean 10, contrast with white
245 > 10, so the chosen background is black. -/
def tinyDark : Img := ⟨.L, 1, 1, fun _ _ => (10, 0, 0)⟩

theorem C6_witness :
    0 < tinyDark.width * tinyDark.height ∧
    ((best_background_for_image tinyDark = (0, 0, 0) ↔
      |(255 : ℚ) - average_brightness tinyDark| > average_brightness tinyDark) ∧
    (|(255 : ℚ) - average_brightness tinyDark| = average_brightness tinyDark →
      best_background_for_image tinyDark = (255, 255, 255)) ∧
    (best_background_for_image tinyDark = (0, 0, 0) ∨
      best_background_for_image tinyDark = (255, 255, 255))) :=
  ⟨by decide, C6_background_choice tinyDark (by decide)⟩

/-! ## Segmenter lemmas -/

theorem segmentRanges_nil_of_small_gaps (mg ms : Nat) :
    ∀ ps : List Nat, List.Chain' (fun a b => b ≤ a + mg) ps → segmentRanges ps mg ms = []
  | [], _ => rfl
  | [_], _ => rfl
  | p :: q :: rest, hch => by
    rw [List.chain'_cons] at hch
    obtain ⟨h1, h2⟩ := hch
    have hc : ¬((mg : Int) < (q : Int) - (p : Int) ∧ (ms : Int) ≤ (q : Int) - (p : Int)) := by
      omega
    simp only [segmentRanges, if_neg hc, List.nil_append]
    exact segmentRanges_nil_of_small_gaps mg ms (q :: rest) h2

theorem chainPositions (mg : Nat) (hmg : 1 ≤ mg) :
    ∀ h : Nat, List.Chain' (fun a b => b ≤ a + mg) (0 :: List.range h ++ [h])
  | 0 => by
    simp [List.chain'_cons]
  | h + 1 => by
    have ih := chainPositions mg hmg h
    have he : 0 :: List.range (h + 1) ++ [h + 1] = (0 :: List.range h ++ [h]) ++ [h + 1] := by
      simp [List.range_succ]
    rw [he]
    refine List.Chain'.append ih (List.chain'_singleton _) ?_
    intro x hx y hy
    rw [show (0 :: List.range h ++ [h]) = ((0 :: List.range h) ++ [h]) from rfl,
      List.getLast?_concat] at hx
    simp only [List.head?_cons, Option.mem_def, Option.some.injEq] at hx hy
    omega

theorem detect_eq_range (img : Img) (tl td : Nat)
    (h : ∀ y, y < img.height → rowDead img tl td y = true) :
    detect_blank_or_dark_spaces img tl td = List.range img.height := by
  rw [detect_blank_or_dark_spaces, List.filter_eq_self]
  intro y hy
  exact h y (List.mem_range.mp hy)

theorem segmentRanges_mem (mg ms : Nat) :
    ∀ ps : List Nat, ∀ p ∈ segmentRanges ps mg ms,
      p.1 < p.2 ∧ mg < p.2 - p.1 ∧ ms ≤ p.2 - p.1
  | [], p, hp => by simp [segmentRanges] at hp
  | [a], p, hp => by simp [segmentRanges] at hp
  | a :: b :: t, p, hp => by
    simp only [segmentRanges, List.mem_append] at hp
    rcases hp with hp | hp
    · by_cases hc : (mg : Int) < (b : Int) - (a : Int) ∧ (ms : Int) ≤ (b : Int) - (a : Int)
      · rw [if_pos hc] at hp
        simp only [List.mem_singleton] at hp
        subst hp
        change a < b ∧ mg < b - a ∧ ms ≤ b - a
        omega
      · rw [if_neg hc] at hp
        simp at hp
    · exact segmentRanges_mem mg ms (b :: t) p hp

theorem segmentRanges_head_le (mg ms : Nat) :
    ∀ (ps : List Nat) (a : Nat), List.Chain' (· ≤ ·) ps → ps.head? = some a →
      ∀ p ∈ segmentRanges ps mg ms, a ≤ p.1
  | [], a, _, hh, p, hp => by simp [segmentRanges] at hp
  | [b], a, _, hh, p, hp => by simp [segmentRanges] at hp
  | b :: c :: t, a, hch, hh, p, hp => by
    rw [List.head?_cons, Option.some.injEq] at hh
    subst hh
    rw [List.chain'_cons] at hch
    simp only [segmentRanges, List.mem_append] at hp
    rcases hp with hp | hp
    · by_cases hc : (mg : Int) < (c : Int) - (b : Int) ∧ (ms : Int) ≤ (c : Int) - (b : Int)
      · rw [if_pos hc] at hp
        simp only [List.mem_singleton] at hp
        subst hp
        exact le_refl _
      · rw [if_neg hc] at hp
        simp at hp
    · exact le_trans hch.1
        (segmentRanges_head_le mg ms (c :: t) c hch.2 (List.head?_cons) p hp)

theorem segmentRanges_pairwise_aux (mg ms : Nat) :
    ∀ ps : List Nat, List.Chain' (· ≤ ·) ps →
      List.Pairwise (fun p q => p.2 ≤ q.1) (segmentRanges ps mg ms)
  | [], _ => List.Pairwise.nil
  | [_], _ => List.Pairwise.nil
  | a :: b :: t, hch => by
    rw [List.chain'_cons] at hch
    simp only [segmentRanges]
    rw [List.pairwise_append]
    refine ⟨?_, segmentRanges_pairwise_aux mg ms (b :: t) hch.2, ?_⟩
    · by_cases hc : (mg : Int) < (b : Int) - (a : Int) ∧ (ms : Int) ≤ (b : Int) - (a : Int)
      · rw [if_pos hc]; exact List.pairwise_singleton _ _
      · rw [if_neg hc]; exact List.Pairwise.nil
    · intro x hx y hy
      by_cases hc : (mg : Int) < (b : Int) - (a : Int) ∧ (ms : Int) ≤ (b : Int) - (a : Int)
      · rw [if_pos hc] at hx
        simp only [List.mem_singleton] at hx
        subst hx
        exact segmentRanges_head_le mg ms (b :: t) b hch.2 (List.head?_cons) y hy
      · rw [if_neg hc] at hx
        simp at hx

theorem segmentRanges_eq_zip_filter (mg ms : Nat) :
    ∀ ps : List Nat, segmentRanges ps mg ms =
      (ps.zip ps.tail).filter fun pq =>
        decide ((mg : Int) < (pq.2 : Int) - (pq.1 : Int) ∧
          (ms : Int) ≤ (pq.2 : Int) - (pq.1 : Int))
  | [] => rfl
  | [_] => rfl
  | a :: b :: t => by
    have ih := segmentRanges_eq_zip_filter mg ms (b :: t)
    simp only [segmentRanges, List.tail_cons, List.zip_cons_cons, List.filter_cons]
    by_cases hc : (mg : Int) < (b : Int) - (a : Int) ∧ (ms : Int) ≤ (b : Int) - (a : Int)
    · rw [if_pos hc, ih]
      simp [hc]
    · rw [if_neg hc, ih]
      simp [hc]

/-- Claim C8: for every strictly increasing dead-row list contained in
`[0, H)`, the split loop emits pairwise non-overlapping segments in
top-to-bottom order; every emitted segment `(s, e)` satisfies
`e - s > min_gap` and `e - s ≥ min_segment_height`; and the emitted
list is exactly the consecutive-pair list filtered by those two tests
(segments are dropped, never merged into neighbors). -/
theorem C8_segmenter_invariants (dead : List Nat) (H mg ms : Nat)
    (hsorted : List.Chain' (· < ·) dead) (hbound : ∀ r ∈ dead, r < H) :
    List.Pairwise (fun p q => p.2 ≤ q.1) (segmentRanges (0 :: dead ++ [H]) mg ms) ∧
    (∀ p ∈ segmentRanges (0 :: dead ++ [H]) mg ms,
      p.1 < p.2 ∧ mg < p.2 - p.1 ∧ ms ≤ p.2 - p.1) ∧
    segmentRanges (0 :: dead ++ [H]) mg ms =
      ((0 :: dead ++ [H]).zip (dead ++ [H])).filter fun pq =>
        decide ((mg : Int) < (pq.2 : Int) - (pq.1 : Int) ∧
          (ms : Int) ≤ (pq.2 : Int) - (pq.1 : Int)) := by
  have hch : List.Chain' (· ≤ ·) (0 :: dead ++ [H]) := by
    have h1 : List.Chain' (· ≤ ·) (0 :: dead) := by
      rw [List.chain'_cons']
      exact ⟨fun y _ => Nat.zero_le y, hsorted.imp fun {_ _} h => le_of_lt h⟩
    rw [show (0 :: dead ++ [H]) = ((0 :: dead) ++ [H]) from rfl]
    refine List.Chain'.append h1 (List.chain'_singleton _) ?_
    intro x hx y hy
    simp only [List.head?_cons, Option.mem_def, Option.some.injEq] at hy
    subst hy
    have hxmem : x ∈ 0 :: dead := List.mem_of_mem_getLast? hx
    rcases List.mem_cons.mp hxmem with h0 | hd
    · omega
    · exact le_of_lt (hbound x hd)
  refine ⟨segmentRanges_pairwise_aux mg ms _ hch, segmentRanges_mem mg ms _, ?_⟩
  exact segmentRanges_eq_zip_filter mg ms (0 :: dead ++ [H])

theorem C8_witness :
    List.Chain' (· < ·) [100, 150] ∧ (∀ r ∈ [100, 150], r < 400) ∧
    (List.Pairwise (fun p q => p.2 ≤ q.1) (segmentRanges (0 :: [100, 150] ++ [400]) 20 75) ∧
    (∀ p ∈ segmentRanges (0 :: [100, 150] ++ [400]) 20 75,
      p.1 < p.2 ∧ 20 < p.2 - p.1 ∧ 75 ≤ p.2 - p.1) ∧
    segmentRanges (0 :: [100, 150] ++ [400]) 20 75 =
      ((0 :: [100, 150] ++ [400]).zip ([100, 150] ++ [400])).filter fun pq =>
        decide ((20 : Int) < (pq.2 : Int) - (pq.1 : Int) ∧
          (75 : Int) ≤ (pq.2 : Int) - (pq.1 : Int))) :=
  ⟨by simp [List.chain'_cons], by decide,
    C8_segmenter_invariants [100, 150] 400 20 75 (by simp [List.chain'_cons]) (by decide)⟩

/-- Claim C10: if every row of the image is dead (all pixels strictly
above `threshold_light` or all strictly below `threshold_dark`) and
`min_gap ≥ 1`, then `split_image_by_blank_or_dark_spaces` returns the
empty list: consecutive split positions differ by at most 1, so no
candidate range ever exceeds `min_gap`, and a uniformly blank or dark
page contributes zero output images. -/
theorem C10_all_rows_dead_empty_split (resize : Img → Nat → Nat → Img) (img : Img)
    (tl td mg ms sw sh : Nat) (hmg : 1 ≤ mg)
    (hdead : ∀ y, y < img.height → rowDead img tl td y = true) :
    split_image_by_blank_or_dark_spaces resize img tl td mg ms sw sh = [] := by
  rw [split_image_by_blank_or_dark_spaces, splitSegments, splitPositions,
    detect_eq_range img tl td hdead,
    segmentRanges_nil_of_small_gaps mg ms _ (chainPositions mg hmg img.height)]
  rfl

theorem C10_witness :
    1 ≤ 20 ∧ (∀ y, y < allWhite.height → rowDead allWhite 240 15 y = true) ∧
    split_image_by_blank_or_dark_spaces stubResize allWhite 240 15 20 75 800 1280 = [] :=
  ⟨by decide, by decide,
    C10_all_rows_dead_empty_split stubResize allWhite 240 15 20 75 800 1280
      (by decide) (by decide)⟩

/-- A row whose pixels all have the same grayscale intensity `c` is dead
iff `c` is above the light threshold or below the dark threshold. -/
theorem rowDead_const (img : Img) (tl td y c : Nat) (hw : 0 < img.width)
    (hc : ∀ x, img.lum x y = c) :
    rowDead img tl td y = (decide (tl < c) || decide (c < td)) := by
  rw [rowDead]
  have h1 : ((List.range img.width).all fun x => decide (tl < img.lum x y)) =
      decide (tl < c) := by
    cases hd : decide (tl < c)
    · rw [List.all_eq_false]
      exact ⟨0, List.mem_range.mpr hw, by rw [hc 0, hd]; simp⟩
    · rw [List.all_eq_true]
      intro x _
      rw [hc x, hd]
  have h2 : ((List.range img.width).all fun x => decide (img.lum x y < td)) =
      decide (c < td) := by
    cases hd : decide (c < td)
    · rw [List.all_eq_false]
      exact ⟨0, List.mem_range.mpr hw, by rw [hc 0, hd]; simp⟩
    · rw [List.all_eq_true]
      intro x _
      rw [hc x, hd]
  rw [h1, h2]

/-- The scenario image of the spec: an all-white 800×2000 grayscale page
with two uniformly dark 50-row bands at rows 600–650 and 1400–1450. -/
def scenarioImg : Img :=
  ⟨.L, 800, 2000, fun _ y =>
    (if (600 ≤ y ∧ y < 650) ∨ (1400 ≤ y ∧ y < 1450) then 0 else 255, 0, 0)⟩

/-- Every row of the scenario image is detected as blank-or-dark at the
page-level thresholds 240/15: the dark rows have intensity 0 < 15 and
the white rows have intensity 255 > 240. -/
theorem scenario_all_dead : ∀ y, y < scenarioImg.height → rowDead scenarioImg 240 15 y = true := by
  intro y _
  by_cases hb : (600 ≤ y ∧ y < 650) ∨ (1400 ≤ y ∧ y < 1450)
  · rw [rowDead_const scenarioImg 240 15 y 0 (by decide)
      (fun x => by simp [Img.lum, scenarioImg, hb])]
    decide
  · rw [rowDead_const scenarioImg 240 15 y 255 (by decide)
      (fun x => by simp [Img.lum, scenarioImg, hb])]
    decide

/-- Claim C1 counterexample: on the spec's scenario (all-white 800×2000
image, dark bands at rows 600–650 and 1400–1450, `min_gap = 20`,
`min_segment_height = 75`) the pipeline does NOT yield the three
segments `[0,600)`, `[650,1400)`, `[1450,2000)` the claim states: the
white rows are themselves detected as blank, so every row is a split
position and nothing is emitted. -/
theorem C1_counterexample :
    splitSegments scenarioImg 240 15 20 75 ≠ [(0, 600), (650, 1400), (1450, 2000)] := by
  rw [splitSegments, splitPositions, detect_eq_range scenarioImg 240 15 scenario_all_dead,
    segmentRanges_nil_of_small_gaps 20 75 _ (chainPositions 20 (by norm_num) scenarioImg.height)]
  simp

/-- Claim C1 amended: on the spec's scenario image the pipeline yields
no segments at all.  Every row — the white rows included, since
255 > 240 satisfies the blank test — is detected as blank-or-dark, so
consecutive split positions never differ by more than 1 and the split
loop emits nothing. -/
theorem C1_amended_scenario_yields_nothing :
    splitSegments scenarioImg 240 15 20 75 = [] := by
  rw [splitSegments, splitPositions, detect_eq_range scenarioImg 240 15 scenario_all_dead,
    segmentRanges_nil_of_small_gaps 20 75 _ (chainPositions 20 (by norm_num) scenarioImg.height)]

theorem mem_maskedCoords (img : Img) (bt dt : Nat) (p : Nat × Nat) :
    p ∈ maskedCoords img bt dt ↔
      p.1 < img.width ∧ p.2 < img.height ∧ cropMask img bt dt p.1 p.2 = true := by
  rw [maskedCoords, Finset.mem_filter, Finset.mem_product, Finset.mem_range, Finset.mem_range]
  tauto

/-- Claim C5: when at least one pixel's grayscale intensity is neither
above the light threshold nor below the dark threshold,
`crop_image_by_blank_or_dark_space` crops exactly to the unique minimal
axis-aligned bounding box `[x0, x1+1) × [y0, y1+1)` covering all
non-excluded pixels: the box lies within the image bounds, covers every
non-excluded pixel, and is contained in every box that covers them
all. -/
theorem C5_crop_minimal_box (img : Img) (bt dt : Nat)
    (h : ∃ x y, x < img.width ∧ y < img.height ∧ cropMask img bt dt x y = true) :
    ∃ x0 y0 x1 y1,
      crop_image_by_blank_or_dark_space img bt dt = img.cropBox x0 y0 (x1 + 1) (y1 + 1) ∧
      x0 ≤ x1 ∧ y0 ≤ y1 ∧ x1 < img.width ∧ y1 < img.height ∧
      (∀ x y, x < img.width → y < img.height → cropMask img bt dt x y = true →
        x0 ≤ x ∧ x ≤ x1 ∧ y0 ≤ y ∧ y ≤ y1) ∧
      (∀ a b c d,
        (∀ x y, x < img.width → y < img.height → cropMask img bt dt x y = true →
          a ≤ x ∧ x ≤ b ∧ c ≤ y ∧ y ≤ d) →
        a ≤ x0 ∧ x1 ≤ b ∧ c ≤ y0 ∧ y1 ≤ d) := by
  obtain ⟨x, y, hx, hy, hm⟩ := h
  have hne : (maskedCoords img bt dt).Nonempty :=
    ⟨(x, y), (mem_maskedCoords img bt dt (x, y)).mpr ⟨hx, hy, hm⟩⟩
  refine ⟨((maskedCoords img bt dt).image Prod.fst).min' (hne.image Prod.fst),
    ((maskedCoords img bt dt).image Prod.snd).min' (hne.image Prod.snd),
    ((maskedCoords img bt dt).image Prod.fst).max' (hne.image Prod.fst),
    ((maskedCoords img bt dt).image Prod.snd).max' (hne.image Prod.snd),
    ?_, ?_, ?_, ?_, ?_, ?_, ?_⟩
  · rw [crop_image_by_blank_or_dark_space, dif_pos hne]
  · exact Finset.min'_le _ _ (Finset.max'_mem _ _)
  · exact Finset.min'_le _ _ (Finset.max'_mem _ _)
  · obtain ⟨p, hp, hpe⟩ := Finset.mem_image.mp
      (Finset.max'_mem _ (hne.image Prod.fst))
    rw [← hpe]
    exact ((mem_maskedCoords img bt dt p).mp hp).1
  · obtain ⟨p, hp, hpe⟩ := Finset.mem_image.mp
      (Finset.max'_mem _ (hne.image Prod.snd))
    rw [← hpe]
    exact ((mem_maskedCoords img bt dt p).mp hp).2.1
  · intro u v hu hv hmask
    have hmemuv : (u, v) ∈ maskedCoords img bt dt :=
      (mem_maskedCoords img bt dt (u, v)).mpr ⟨hu, hv, hmask⟩
    exact ⟨Finset.min'_le _ _ (Finset.mem_image_of_mem Prod.fst hmemuv),
      Finset.le_max' _ _ (Finset.mem_image_of_mem Prod.fst hmemuv),
      Finset.min'_le _ _ (Finset.mem_image_of_mem Prod.snd hmemuv),
      Finset.le_max' _ _ (Finset.mem_image_of_mem Prod.snd hmemuv)⟩
  · intro a b c d hbox
    have hbox' : ∀ p ∈ maskedCoords img bt dt, a ≤ p.1 ∧ p.1 ≤ b ∧ c ≤ p.2 ∧ p.2 ≤ d := by
      intro p hp
      obtain ⟨h1, h2, h3⟩ := (mem_maskedCoords img bt dt p).mp hp
      exact hbox p.1 p.2 h1 h2 h3
    refine ⟨?_, ?_, ?_, ?_⟩
    · obtain ⟨p, hp, hpe⟩ := Finset.mem_image.mp
        (Finset.min'_mem _ (hne.image Prod.fst))
      rw [← hpe]
      exact (hbox' p hp).1
    · obtain ⟨p, hp, hpe⟩ := Finset.mem_image.mp
        (Finset.max'_mem _ (hne.image Prod.fst))
      rw [← hpe]
      exact (hbox' p hp).2.1
    · obtain ⟨p, hp, hpe⟩ := Finset.mem_image.mp
        (Finset.min'_mem _ (hne.image Prod.snd))
      rw [← hpe]
      exact (hbox' p hp).2.2.1
    · obtain ⟨p, hp, hpe⟩ := Finset.mem_image.mp
        (Finset.max'_mem _ (hne.image Prod.snd))
      rw [← hpe]
      exact (hbox' p hp).2.2.2

/-- A 4×3 grayscale image whose only mid-intensity pixel is at (1, 1);
all other pixels are white. -/
def contentImg : Img :=
  ⟨.L, 4, 3, fun x y => (if x = 1 ∧ y = 1 then 100 else 255, 0, 0)⟩

theorem C5_witness :
    (∃ x y, x < contentImg.width ∧ y < contentImg.height ∧
      cropMask contentImg 240 30 x y = true) ∧
    (∃ x0 y0 x1 y1,
      crop_image_by_blank_or_dark_space contentImg 240 30 =
        contentImg.cropBox x0 y0 (x1 + 1) (y1 + 1) ∧
      x0 ≤ x1 ∧ y0 ≤ y1 ∧ x1 < contentImg.width ∧ y1 < contentImg.height ∧
      (∀ x y, x < contentImg.width → y < contentImg.height →
        cropMask contentImg 240 30 x y = true →
        x0 ≤ x ∧ x ≤ x1 ∧ y0 ≤ y ∧ y ≤ y1) ∧
      (∀ a b c d,
        (∀ x y, x < contentImg.width → y < contentImg.height →
          cropMask contentImg 240 30 x y = true →
          a ≤ x ∧ x ≤ b ∧ c ≤ y ∧ y ≤ d) →
        a ≤ x0 ∧ x1 ≤ b ∧ c ≤ y0 ∧ y1 ≤ d)) :=
  ⟨⟨1, 1, by decide, by decide, by decide⟩,
    C5_crop_minimal_box contentImg 240 30 ⟨1, 1, by decide, by decide, by decide⟩⟩

/-- A 2000×1 grayscale image: its extreme aspect ratio truncates the
fitted height to `800 * 1 / 2000 = 0`. -/
def wideThin : Img := ⟨.L, 2000, 1, fun _ _ => (100, 0, 0)⟩

/-- Claim C4 counterexample: the 2000×1 image has positive width and
height, yet `enhance_image_for_screen` does not return a canvas-sized
image for it: the fitted height truncates to 0, the empty resized
image makes the source's mean computation raise, and the `except`
returns the original 2000×1 image. -/
theorem C4_counterexample :
    0 < wideThin.width ∧ 0 < wideThin.height ∧
      ¬((enhance_image_for_screen stubResize wideThin 800 1280).width = 800 ∧
        (enhance_image_for_screen stubResize wideThin 800 1280).height = 1280) := by
  decide

/-- Claim C4 amended: for every input image with positive width and
height whose fitted dimensions are both positive (the degenerate
truncation-to-zero case excluded), `enhance_image_for_screen` returns
the `sw × sh` canvas with the resized content pasted at
`((sw - nw) / 2, (sh - nh) / 2)`; the fitted dimensions never exceed
the canvas (`nw ≤ sw`, `nh ≤ sh`) and are obtained by scaling width to
`sw` when the image aspect exceeds the canvas aspect and scaling height
to `sh` otherwise, with the scaled dimension the exact floor of the
aspect-preserving value (hence aspect preserved within one pixel of
rounding). -/
theorem C4_amended_canvas_fit (resize : Img → Nat → Nat → Img) (img : Img) (sw sh nw nh : Nat)
    (hw : 0 < img.width) (hh : 0 < img.height) (hsw : 0 < sw) (hsh : 0 < sh)
    (hfit : fitDims img.width img.height sw sh = (nw, nh)) (hnw : 0 < nw) (hnh : 0 < nh) :
    enhance_image_for_screen resize img sw sh =
      pasteCanvas sw sh (best_background_for_image (resize img nw nh)) (resize img nw nh)
        ((sw - nw) / 2) ((sh - nh) / 2) ∧
    (enhance_image_for_screen resize img sw sh).width = sw ∧
    (enhance_image_for_screen resize img sw sh).height = sh ∧
    nw ≤ sw ∧ nh ≤ sh ∧
    (img.width * sh > sw * img.height →
      nw = sw ∧ nh = sw * img.height / img.width ∧
      nh * img.width ≤ sw * img.height ∧ sw * img.height < (nh + 1) * img.width) ∧
    (¬img.width * sh > sw * img.height →
      nh = sh ∧ nw = sh * img.width / img.height ∧
      nw * img.height ≤ sh * img.width ∧ sh * img.width < (nw + 1) * img.height) := by
  have h1 : (fitDims img.width img.height sw sh).1 = nw := by rw [hfit]
  have h2 : (fitDims img.width img.height sw sh).2 = nh := by rw [hfit]
  have hg1 : ¬(img.height = 0 ∨ sh = 0) := by omega
  have hg2 : ¬(nw = 0 ∨ nh = 0) := by omega
  have henh : enhance_image_for_screen resize img sw sh =
      pasteCanvas sw sh (best_background_for_image (resize img nw nh)) (resize img nw nh)
        ((sw - nw) / 2) ((sh - nh) / 2) := by
    simp only [enhance_image_for_screen, h1, h2]
    rw [if_neg hg1, if_neg hg2]
  refine ⟨henh, by rw [henh]; rfl, by rw [henh]; rfl, ?_⟩
  by_cases hasp : img.width * sh > sw * img.height
  · have hv : fitDims img.width img.height sw sh = (sw, sw * img.height / img.width) := by
      rw [fitDims, if_pos hasp]
    have hv' : (nw, nh) = (sw, sw * img.height / img.width) := by rw [← hfit, hv]
    have hv1 : nw = sw := congrArg Prod.fst hv'
    have hv2 : nh = sw * img.height / img.width := congrArg Prod.snd hv'
    have hnhsh : nh ≤ sh := by
      rw [hv2]
      calc sw * img.height / img.width ≤ img.width * sh / img.width :=
            Nat.div_le_div_right (by omega)
        _ = sh := Nat.mul_div_cancel_left sh hw
    refine ⟨by omega, hnhsh, fun _ => ⟨hv1, hv2, ?_, ?_⟩, fun hc => absurd hasp hc⟩
    · rw [hv2]
      exact Nat.div_mul_le_self _ _
    · rw [hv2]
      exact Nat.lt_mul_of_div_lt (Nat.lt_succ_self _) hw
  · have hv : fitDims img.width img.height sw sh = (sh * img.width / img.height, sh) := by
      rw [fitDims, if_neg hasp]
    have hv' : (nw, nh) = (sh * img.width / img.height, sh) := by rw [← hfit, hv]
    have hv1 : nw = sh * img.width / img.height := congrArg Prod.fst hv'
    have hv2 : nh = sh := congrArg Prod.snd hv'
    have hnwsw : nw ≤ sw := by
      rw [hv1]
      calc sh * img.width / img.height ≤ sw * img.height / img.height :=
            Nat.div_le_div_right (by rw [Nat.mul_comm sh img.width]; omega)
        _ = sw := Nat.mul_div_cancel sw hh
    refine ⟨hnwsw, by omega, fun hc => absurd hc hasp, fun _ => ⟨hv2, hv1, ?_, ?_⟩⟩
    · rw [hv1]
      exact Nat.div_mul_le_self _ _
    · rw [hv1]
      exact Nat.lt_mul_of_div_lt (Nat.lt_succ_self _) hh

theorem C4_witness :
    0 < tinyDark.width ∧ 0 < tinyDark.height ∧ 0 < 2 ∧ 0 < 2 ∧
      fitDims tinyDark.width tinyDark.height 2 2 = (2, 2) ∧ 0 < 2 ∧ 0 < 2 ∧
    (enhance_image_for_screen stubResize tinyDark 2 2 =
      pasteCanvas 2 2 (best_background_for_image (stubResize tinyDark 2 2))
        (stubResize tinyDark 2 2) ((2 - 2) / 2) ((2 - 2) / 2) ∧
    (enhance_image_for_screen stubResize tinyDark 2 2).width = 2 ∧
    (enhance_image_for_screen stubResize tinyDark 2 2).height = 2 ∧
    2 ≤ 2 ∧ 2 ≤ 2 ∧
    (tinyDark.width * 2 > 2 * tinyDark.height →
      2 = 2 ∧ 2 = 2 * tinyDark.height / tinyDark.width ∧
      2 * tinyDark.width ≤ 2 * tinyDark.height ∧ 2 * tinyDark.height < (2 + 1) * tinyDark.width) ∧
    (¬tinyDark.width * 2 > 2 * tinyDark.height →
      2 = 2 ∧ 2 = 2 * tinyDark.width / tinyDark.height ∧
      2 * tinyDark.height ≤ 2 * tinyDark.width ∧ 2 * tinyDark.width < (2 + 1) * tinyDark.height)) :=
  ⟨by decide, by decide, by decide, by decide, by decide, by decide, by decide,
    C4_amended_canvas_fit stubResize tinyDark 2 2 2 2 (by decide) (by decide) (by decide)
      (by decide) (by decide) (by decide) (by decide)⟩

/-! ## Canvas sum lemmas -/

theorem ite_split_add (P : Prop) [Decidable P] (A B : ℚ) :
    (if P then A else B) = (if P then A else 0) + (if P then 0 else B) := by
  split <;> simp

theorem ite_zero_sub (P : Prop) [Decidable P] (B : ℚ) :
    (if P then 0 else B) = B - (if P then B else 0) := by
  split <;> simp

theorem sum_window1 (n a w : Nat) (g : Nat → ℚ) (hw : a + w ≤ n) :
    (∑ x ∈ Finset.range n, if a ≤ x ∧ x < a + w then g (x - a) else 0) =
    ∑ j ∈ Finset.range w, g j := by
  have hsub : Finset.Ico a (a + w) ⊆ Finset.range n := by
    intro x hx
    rw [Finset.mem_Ico] at hx
    rw [Finset.mem_range]
    omega
  have hzero : ∀ x ∈ Finset.range n, x ∉ Finset.Ico a (a + w) →
      (if a ≤ x ∧ x < a + w then g (x - a) else 0) = 0 := by
    intro x _ hxn
    rw [Finset.mem_Ico] at hxn
    exact if_neg fun hc => hxn ⟨hc.1, hc.2⟩
  rw [← Finset.sum_subset hsub hzero]
  have hstep : ∀ x ∈ Finset.Ico a (a + w),
      (if a ≤ x ∧ x < a + w then g (x - a) else 0) = g (x - a) := by
    intro x hx
    rw [Finset.mem_Ico] at hx
    exact if_pos ⟨hx.1, hx.2⟩
  rw [Finset.sum_congr rfl hstep, Finset.sum_Ico_eq_sum_range]
  simp [Nat.add_sub_cancel_left]

theorem sum_window (sw sh px0 py0 cw ch : Nat) (f : Nat → Nat → ℚ)
    (hx : px0 + cw ≤ sw) (hy : py0 + ch ≤ sh) :
    (∑ y ∈ Finset.range sh, ∑ x ∈ Finset.range sw,
      if px0 ≤ x ∧ x < px0 + cw ∧ py0 ≤ y ∧ y < py0 + ch then
        f (x - px0) (y - py0) else 0) =
    ∑ i ∈ Finset.range ch, ∑ j ∈ Finset.range cw, f j i := by
  have hinner : ∀ y, (∑ x ∈ Finset.range sw,
      if px0 ≤ x ∧ x < px0 + cw ∧ py0 ≤ y ∧ y < py0 + ch then
        f (x - px0) (y - py0) else 0) =
      (if py0 ≤ y ∧ y < py0 + ch then
        ∑ x ∈ Finset.range sw,
          (if px0 ≤ x ∧ x < px0 + cw then f (x - px0) (y - py0) else 0)
      else 0) := by
    intro y
    by_cases hyc : py0 ≤ y ∧ y < py0 + ch
    · rw [if_pos hyc]
      refine Finset.sum_congr rfl fun x _ => ?_
      by_cases hxc : px0 ≤ x ∧ x < px0 + cw
      · rw [if_pos ⟨hxc.1, hxc.2, hyc.1, hyc.2⟩, if_pos hxc]
      · rw [if_neg fun hc => hxc ⟨hc.1, hc.2.1⟩, if_neg hxc]
    · rw [if_neg hyc]
      exact Finset.sum_eq_zero fun x _ =>
        if_neg fun hc => hyc ⟨hc.2.2.1, hc.2.2.2⟩
  rw [Finset.sum_congr rfl fun y _ => hinner y]
  rw [sum_window1 sh py0 ch (fun i => ∑ x ∈ Finset.range sw,
    if px0 ≤ x ∧ x < px0 + cw then f (x - px0) i else 0) hy]
  exact Finset.sum_congr rfl fun i _ => sum_window1 sw px0 cw (fun j => f j i) hx

theorem lumSum_pasteCanvas (sw sh : Nat) (bg : Nat × Nat × Nat) (c : Img) (px0 py0 : Nat)
    (hx : px0 + c.width ≤ sw) (hy : py0 + c.height ≤ sh) :
    lumSum (pasteCanvas sw sh bg c px0 py0) =
      lumSum c + (lumRGB bg : ℚ) * ((sw : ℚ) * (sh : ℚ) - (c.width : ℚ) * (c.height : ℚ)) := by
  have hplum : ∀ x y, ((pasteCanvas sw sh bg c px0 py0).lum x y : ℚ) =
      if px0 ≤ x ∧ x < px0 + c.width ∧ py0 ≤ y ∧ y < py0 + c.height then
        (c.lum (x - px0) (y - py0) : ℚ) else (lumRGB bg : ℚ) := by
    intro x y
    have hn : (pasteCanvas sw sh bg c px0 py0).lum x y =
        if px0 ≤ x ∧ x < px0 + c.width ∧ py0 ≤ y ∧ y < py0 + c.height then
          c.lum (x - px0) (y - py0) else lumRGB bg := by
      show lumRGB (if px0 ≤ x ∧ x < px0 + c.width ∧ py0 ≤ y ∧ y < py0 + c.height then
          c.toRGB (x - px0) (y - py0) else bg) = _
      rw [apply_ite lumRGB, lumRGB_toRGB]
    rw [hn, apply_ite (Nat.cast : Nat → ℚ)]
  have h0 : lumSum (pasteCanvas sw sh bg c px0 py0) =
      ∑ y ∈ Finset.range sh, ∑ x ∈ Finset.range sw,
        ((pasteCanvas sw sh bg c px0 py0).lum x y : ℚ) := rfl
  rw [h0]
  rw [Finset.sum_congr rfl fun y _ => Finset.sum_congr rfl fun x _ => hplum x y]
  rw [Finset.sum_congr rfl fun y _ => Finset.sum_congr rfl fun x _ =>
    ite_split_add _ _ _]
  rw [Finset.sum_congr rfl fun y _ => Finset.sum_add_distrib, Finset.sum_add_distrib]
  rw [sum_window sw sh px0 py0 c.width c.height (fun j i => (c.lum j i : ℚ)) hx hy]
  have h2 : (∑ y ∈ Finset.range sh, ∑ x ∈ Finset.range sw,
      if px0 ≤ x ∧ x < px0 + c.width ∧ py0 ≤ y ∧ y < py0 + c.height then (0 : ℚ)
      else (lumRGB bg : ℚ)) =
      (lumRGB bg : ℚ) * ((sw : ℚ) * (sh : ℚ) - (c.width : ℚ) * (c.height : ℚ)) := by
    rw [Finset.sum_congr rfl fun y _ => Finset.sum_congr rfl fun x _ =>
      ite_zero_sub _ _]
    rw [Finset.sum_congr rfl fun y _ => Finset.sum_sub_distrib, Finset.sum_sub_distrib]
    rw [sum_window sw sh px0 py0 c.width c.height (fun _ _ => (lumRGB bg : ℚ)) hx hy]
    simp only [Finset.sum_const, Finset.card_range, nsmul_eq_mul]
    ring
  rw [h2]
  rfl

/-! ## Background-choice lemmas -/

theorem lumSum_nonneg (img : Img) : 0 ≤ lumSum img :=
  Finset.sum_nonneg fun _ _ => Finset.sum_nonneg fun _ _ => Nat.cast_nonneg _

theorem average_brightness_nonneg (img : Img) : 0 ≤ average_brightness img := by
  rw [average_brightness]
  apply div_nonneg (lumSum_nonneg img)
  positivity

theorem best_background_black_iff (img : Img) :
    best_background_for_image img = (0, 0, 0) ↔ average_brightness img < 255 / 2 := by
  have key : (|(255 : ℚ) - average_brightness img| > average_brightness img) ↔
      average_brightness img < 255 / 2 := by
    rcases abs_cases ((255 : ℚ) - average_brightness img) with ⟨he, _⟩ | ⟨he, hneg⟩
    · rw [he]
      constructor <;> intro <;> linarith
    · rw [he]
      constructor <;> intro <;> linarith
  rw [best_background_for_image]
  by_cases hc : |(255 : ℚ) - average_brightness img| > average_brightness img
  · rw [if_pos hc]
    simp [key.mp hc]
  · rw [if_neg hc]
    constructor
    · intro he
      exact absurd he (by decide)
    · intro hlt
      exact absurd (key.mpr hlt) hc

theorem best_background_cases (img : Img) :
    best_background_for_image img = (0, 0, 0) ∨
      best_background_for_image img = (255, 255, 255) := by
  rw [best_background_for_image]
  split
  · exact Or.inl rfl
  · exact Or.inr rfl

theorem fitDims_le (w h sw sh : Nat) (hw : 0 < w) (hh : 0 < h) :
    (fitDims w h sw sh).1 ≤ sw ∧ (fitDims w h sw sh).2 ≤ sh := by
  rw [fitDims]
  by_cases hasp : w * sh > sw * h
  · rw [if_pos hasp]
    refine ⟨le_refl _, ?_⟩
    calc sw * h / w ≤ w * sh / w := Nat.div_le_div_right (by omega)
      _ = sh := Nat.mul_div_cancel_left sh hw
  · rw [if_neg hasp]
    refine ⟨?_, le_refl _⟩
    calc sh * w / h ≤ sw * h / h :=
          Nat.div_le_div_right (by rw [Nat.mul_comm sh w]; omega)
      _ = sw := Nat.mul_div_cancel sw hh

theorem enhance_eq_paste (resize : Img → Nat → Nat → Img) (img : Img) (sw sh nw nh : Nat)
    (hh : 0 < img.height) (hsh : 0 < sh)
    (hfit : fitDims img.width img.height sw sh = (nw, nh)) (hnw : 0 < nw) (hnh : 0 < nh) :
    enhance_image_for_screen resize img sw sh =
      pasteCanvas sw sh (best_background_for_image (resize img nw nh)) (resize img nw nh)
        ((sw - nw) / 2) ((sh - nh) / 2) := by
  have h1 : (fitDims img.width img.height sw sh).1 = nw := by rw [hfit]
  have h2 : (fitDims img.width img.height sw sh).2 = nh := by rw [hfit]
  simp only [enhance_image_for_screen, h1, h2]
  rw [if_neg (by omega : ¬(img.height = 0 ∨ sh = 0)),
    if_neg (by omega : ¬(nw = 0 ∨ nh = 0))]

/-- Claim C7: the background choice is idempotent under refitting.
Under the resize collaborator's contract (the resized image has the
requested dimensions and resizing a canvas-sized image to the canvas
size is the identity), the background `enhance_image_for_screen`
selects when run on its own (non-degenerate) output equals the
background it selected from the original resized content. -/
theorem C7_background_idempotent (resize : Img → Nat → Nat → Img) (img : Img) (sw sh nw nh : Nat)
    (hw : 0 < img.width) (hh : 0 < img.height) (hsw : 0 < sw) (hsh : 0 < sh)
    (hfit : fitDims img.width img.height sw sh = (nw, nh)) (hnw : 0 < nw) (hnh : 0 < nh)
    (hrw : (resize img nw nh).width = nw) (hrh : (resize img nw nh).height = nh)
    (hid : resize (enhance_image_for_screen resize img sw sh) sw sh =
      enhance_image_for_screen resize img sw sh) :
    chosenBackground resize (enhance_image_for_screen resize img sw sh) sw sh =
      chosenBackground resize img sw sh := by
  have h1 : (fitDims img.width img.height sw sh).1 = nw := by rw [hfit]
  have h2 : (fitDims img.width img.height sw sh).2 = nh := by rw [hfit]
  have henh := enhance_eq_paste resize img sw sh nw nh hh hsh hfit hnw hnh
  have hle := fitDims_le img.width img.height sw sh hw hh
  rw [h1, h2] at hle
  have how : (enhance_image_for_screen resize img sw sh).width = sw := by rw [henh]; rfl
  have hoh : (enhance_image_for_screen resize img sw sh).height = sh := by rw [henh]; rfl
  have hfit21 : (fitDims sw sh sw sh).1 = sw := by
    rw [fitDims, if_neg (by omega), Nat.mul_div_cancel_left sw hsh]
  have hfit22 : (fitDims sw sh sw sh).2 = sh := by
    rw [fitDims, if_neg (by omega)]
  have hlhs : chosenBackground resize (enhance_image_for_screen resize img sw sh) sw sh =
      best_background_for_image (enhance_image_for_screen resize img sw sh) := by
    rw [chosenBackground, how, hoh, hfit21, hfit22, hid]
  have hrhs : chosenBackground resize img sw sh =
      best_background_for_image (resize img nw nh) := by
    rw [chosenBackground, h1, h2]
  rw [hlhs, hrhs]
  have hxle : (sw - nw) / 2 + (resize img nw nh).width ≤ sw := by rw [hrw]; omega
  have hyle : (sh - nh) / 2 + (resize img nw nh).height ≤ sh := by rw [hrh]; omega
  have hsum := lumSum_pasteCanvas sw sh (best_background_for_image (resize img nw nh))
    (resize img nw nh) ((sw - nw) / 2) ((sh - nh) / 2) hxle hyle
  rw [hrw, hrh] at hsum
  have havgout : average_brightness (enhance_image_for_screen resize img sw sh) =
      (lumSum (resize img nw nh) +
        (lumRGB (best_background_for_image (resize img nw nh)) : ℚ) *
          ((sw : ℚ) * (sh : ℚ) - (nw : ℚ) * (nh : ℚ))) / ((sw : ℚ) * (sh : ℚ)) := by
    rw [average_brightness, how, hoh, henh, hsum]
  have havgr : average_brightness (resize img nw nh) =
      lumSum (resize img nw nh) / ((nw : ℚ) * (nh : ℚ)) := by
    rw [average_brightness, hrw, hrh]
  have hA : (0 : ℚ) < (nw : ℚ) * (nh : ℚ) :=
    mul_pos (by exact_mod_cast hnw) (by exact_mod_cast hnh)
  have hT : (0 : ℚ) < (sw : ℚ) * (sh : ℚ) :=
    mul_pos (by exact_mod_cast hsw) (by exact_mod_cast hsh)
  have hAT : (nw : ℚ) * (nh : ℚ) ≤ (sw : ℚ) * (sh : ℚ) := by
    exact_mod_cast Nat.mul_le_mul hle.1 hle.2
  by_cases hcase : average_brightness (resize img nw nh) < 255 / 2
  · have hbgb : best_background_for_image (resize img nw nh) = (0, 0, 0) :=
      (best_background_black_iff _).mpr hcase
    have hSA : lumSum (resize img nw nh) < 255 / 2 * ((nw : ℚ) * (nh : ℚ)) := by
      rw [havgr, div_lt_iff₀ hA] at hcase
      exact hcase
    have houtlt : average_brightness (enhance_image_for_screen resize img sw sh) < 255 / 2 := by
      rw [havgout, hbgb]
      have hz : (lumRGB (0, 0, 0) : ℚ) = 0 := by norm_num [lumRGB]
      rw [hz, zero_mul, add_zero, div_lt_iff₀ hT]
      linarith [hSA, hAT]
    rw [(best_background_black_iff _).mpr houtlt, hbgb]
  · have hbgw : best_background_for_image (resize img nw nh) = (255, 255, 255) := by
      rcases best_background_cases (resize img nw nh) with hb | hw2
      · exact absurd ((best_background_black_iff _).mp hb) hcase
      · exact hw2
    have hSA : 255 / 2 * ((nw : ℚ) * (nh : ℚ)) ≤ lumSum (resize img nw nh) := by
      rw [havgr] at hcase
      rw [not_lt, le_div_iff₀ hA] at hcase
      exact hcase
    have houtge : ¬average_brightness (enhance_image_for_screen resize img sw sh) < 255 / 2 := by
      rw [havgout, hbgw, not_lt]
      have hz : (lumRGB (255, 255, 255) : ℚ) = 255 := by norm_num [lumRGB]
      rw [hz, le_div_iff₀ hT]
      linarith [hSA, hAT]
    rcases best_background_cases (enhance_image_for_screen resize img sw sh) with hb | hw2
    · exact absurd ((best_background_black_iff _).mp hb) houtge
    · rw [hw2, hbgw]

theorem stubResize_id (img : Img) (nw nh : Nat) (h1 : img.width = nw) (h2 : img.height = nh) :
    stubResize img nw nh = img := by
  rw [stubResize, if_pos ⟨h1, h2⟩]

theorem C7_witness :
    0 < tinyDark.width ∧ 0 < tinyDark.height ∧ 0 < 2 ∧ 0 < 2 ∧
      fitDims tinyDark.width tinyDark.height 2 2 = (2, 2) ∧ 0 < 2 ∧ 0 < 2 ∧
      (stubResize tinyDark 2 2).width = 2 ∧ (stubResize tinyDark 2 2).height = 2 ∧
      stubResize (enhance_image_for_screen stubResize tinyDark 2 2) 2 2 =
        enhance_image_for_screen stubResize tinyDark 2 2 ∧
      chosenBackground stubResize (enhance_image_for_screen stubResize tinyDark 2 2) 2 2 =
        chosenBackground stubResize tinyDark 2 2 :=
  ⟨by decide, by decide, by decide, by decide, by decide, by decide, by decide,
    by decide, by decide,
    stubResize_id (enhance_image_for_screen stubResize tinyDark 2 2) 2 2
      (by decide) (by decide),
    C7_background_idempotent stubResize tinyDark 2 2 2 2 (by decide) (by decide) (by decide)
      (by decide) (by decide) (by decide) (by decide) (by decide) (by decide)
      (stubResize_id (enhance_image_for_screen stubResize tinyDark 2 2) 2 2
        (by decide) (by decide))⟩
